import Mathlib

/-!
Verification of the Data Sweeper tabular pipeline (`src/Streamlit_app.py`).

The app manipulates pandas DataFrames.  We embed a dataset as a header of
named, typed columns together with row-major cell data.  Missing values
(pandas `NaN`/`NaT`) are the cell `Cell.na`.  The pipeline stages are
translated one by one: `basic_cleaning` (lines 29-49), column selection
(lines 110-115), numeric conversion (lines 118-124), date-candidate
detection (lines 142-150), the date view (lines 152-158) and the per-file
ingestion loop (lines 62-84).
-/

namespace DataSweeper

/-- A cell of a dataset: missing (`NaN`/`NaT`), a number, a text value, or a
date (dates are coded as natural numbers so that the calendar order is the
numeric order). -/
inductive Cell where
  | na : Cell
  | num : ℚ → Cell
  | str : String → Cell
  | date : Nat → Cell
deriving DecidableEq, Repr

/-- The dtype of a column: numeric (`select_dtypes(include=['number'])`),
object/text, or datetime. -/
inductive Dtype where
  | num : Dtype
  | obj : Dtype
  | date : Dtype
deriving DecidableEq, Repr

/-- A dataset: an ordered header of (column name, dtype) pairs and row-major
cell data.  Well-formed data has every row of the header's length. -/
structure DataFrame where
  header : List (String × Dtype)
  rows : List (List Cell)
deriving DecidableEq, Repr

/-- Rows are well formed: each has exactly one cell per header column. -/
def DataFrame.Wf (df : DataFrame) : Prop :=
  ∀ r ∈ df.rows, r.length = df.header.length

instance (df : DataFrame) : Decidable df.Wf := by
  unfold DataFrame.Wf; infer_instance

/-- Scan of `drop_duplicates()`: keep an element exactly when it has not been
seen before, carrying the set of elements already kept. -/
def dedupSeen {α : Type} [DecidableEq α] (seen : List α) : List α → List α
  | [] => []
  | x :: xs => if x ∈ seen then dedupSeen seen xs else x :: dedupSeen (x :: seen) xs

/-- `df.drop_duplicates()`: remove exact duplicate rows, keeping the first
occurrence of each; the order of the survivors is the original order. -/
def dedupKeepFirst {α : Type} [DecidableEq α] (l : List α) : List α :=
  dedupSeen [] l

/-- The cells of column `j`, read off the rows (missing for short rows). -/
def colCells (rows : List (List Cell)) (j : Nat) : List Cell :=
  rows.map (fun r => r.getD j Cell.na)

/-- The numeric values present in a list of cells (missing cells and
non-numeric cells contribute nothing, as in pandas reductions). -/
def ratsOf (cells : List Cell) : List ℚ :=
  cells.filterMap (fun c => match c with | Cell.num q => some q | _ => none)

/-- `Series.median()`: the middle of the sorted non-missing values, the mean
of the two middles for an even count, undefined (`NaN`) for an empty list. -/
def median (l : List ℚ) : Option ℚ :=
  let s := List.insertionSort (· ≤ ·) l
  if s.length = 0 then none
  else if s.length % 2 = 1 then some (s.getD (s.length / 2) 0)
  else some ((s.getD (s.length / 2 - 1) 0 + s.getD (s.length / 2) 0) / 2)

/-- The value `fillna` writes into the missing cells of column `j`,
as `basic_cleaning` computes it on the deduplicated rows: the median for a
numeric column (`Cell.na` when the median is undefined, so filling changes
nothing), the placeholder `"Missing"` for an object column, and nothing for
other dtypes (datetime columns are in neither `select_dtypes` set). -/
def colFill (rows1 : List (List Cell)) (j : Nat) : Dtype → Cell
  | Dtype.num =>
      match median (ratsOf (colCells rows1 j)) with
      | some m => Cell.num m
      | none => Cell.na
  | Dtype.obj => Cell.str "Missing"
  | Dtype.date => Cell.na

/-- The per-column fill values for a header, columns `k, k+1, …`. -/
def colFillsAux (rows1 : List (List Cell)) : List (String × Dtype) → Nat → List Cell
  | [], _ => []
  | h :: hs, k => colFill rows1 k h.2 :: colFillsAux rows1 hs (k + 1)

/-- Apply per-column fill values to one row: a missing cell takes its
column's fill value, any other cell is untouched. -/
def fillRow : List Cell → List Cell → List Cell
  | _, [] => []
  | [], cs => cs
  | f :: fs, c :: cs => (if c = Cell.na then f else c) :: fillRow fs cs

/-- `basic_cleaning` (lines 29-49): drop duplicate rows, then fill each
numeric column's missing cells with that column's median (computed after
deduplication) and each object column's missing cells with `"Missing"`. -/
def basic_cleaning (df : DataFrame) : DataFrame :=
  let rows1 := dedupKeepFirst df.rows
  { header := df.header
    rows := rows1.map (fillRow (colFillsAux rows1 df.header 0)) }

/-! ### Deduplication lemmas -/

theorem dedupSeen_sublist {α : Type} [DecidableEq α] (seen : List α) :
    ∀ l : List α, (dedupSeen seen l).Sublist l := by
  intro l
  induction l generalizing seen with
  | nil => simp [dedupSeen]
  | cons x xs ih =>
    simp only [dedupSeen]
    by_cases hx : x ∈ seen
    · simp only [hx, if_pos]
      exact (ih seen).trans (List.sublist_cons_self x xs)
    · simp only [hx, if_neg, not_false_iff]
      exact (ih (x :: seen)).cons₂ x

theorem mem_dedupSeen {α : Type} [DecidableEq α] (a : α) (seen : List α) :
    ∀ l : List α, a ∈ dedupSeen seen l ↔ a ∈ l ∧ a ∉ seen := by
  intro l
  induction l generalizing seen with
  | nil => simp [dedupSeen]
  | cons x xs ih =>
    simp only [dedupSeen]
    by_cases hx : x ∈ seen
    · rw [if_pos hx, ih]
      constructor
      · rintro ⟨h1, h2⟩; exact ⟨List.mem_cons_of_mem x h1, h2⟩
      · rintro ⟨h1, h2⟩
        rcases List.mem_cons.mp h1 with rfl | h1
        · exact absurd hx h2
        · exact ⟨h1, h2⟩
    · rw [if_neg hx]
      constructor
      · intro h
        rcases List.mem_cons.mp h with rfl | h
        · exact ⟨List.mem_cons_self a xs, hx⟩
        · obtain ⟨h1, h2⟩ := (ih (x :: seen)).mp h
          exact ⟨List.mem_cons_of_mem x h1, fun hs => h2 (List.mem_cons_of_mem x hs)⟩
      · rintro ⟨h1, h2⟩
        rcases List.mem_cons.mp h1 with rfl | h1
        · exact List.mem_cons_self a _
        · by_cases hax : a = x
          · subst hax; exact List.mem_cons_self a _
          · refine List.mem_cons_of_mem x ((ih (x :: seen)).mpr ⟨h1, ?_⟩)
            intro hs
            exact (List.mem_cons.mp hs).elim hax h2

theorem nodup_dedupSeen {α : Type} [DecidableEq α] (seen : List α) :
    ∀ l : List α, (dedupSeen seen l).Nodup := by
  intro l
  induction l generalizing seen with
  | nil => simp [dedupSeen]
  | cons x xs ih =>
    simp only [dedupSeen]
    by_cases hx : x ∈ seen
    · simpa [hx] using ih seen
    · simp only [hx, if_neg, not_false_iff, List.nodup_cons]
      refine ⟨fun hmem => ?_, ih (x :: seen)⟩
      exact ((mem_dedupSeen x (x :: seen) xs).mp hmem).2 (List.mem_cons_self x seen)

theorem dedupKeepFirst_sublist {α : Type} [DecidableEq α] (l : List α) :
    (dedupKeepFirst l).Sublist l := dedupSeen_sublist [] l

theorem mem_dedupKeepFirst {α : Type} [DecidableEq α] (a : α) (l : List α) :
    a ∈ dedupKeepFirst l ↔ a ∈ l := by
  simp [dedupKeepFirst, mem_dedupSeen]

theorem nodup_dedupKeepFirst {α : Type} [DecidableEq α] (l : List α) :
    (dedupKeepFirst l).Nodup := nodup_dedupSeen [] l

theorem dedupSeen_eq_self {α : Type} [DecidableEq α] (seen : List α) :
    ∀ l : List α, l.Nodup → (∀ a ∈ l, a ∉ seen) → dedupSeen seen l = l := by
  intro l
  induction l generalizing seen with
  | nil => intro _ _; rfl
  | cons x xs ih =>
    intro hnd hdisj
    have hx : x ∉ seen := hdisj x (List.mem_cons_self x xs)
    simp only [dedupSeen, hx, if_neg, not_false_iff, List.cons.injEq, true_and]
    refine ih (x :: seen) (List.Nodup.of_cons hnd) ?_
    intro a ha
    simp only [List.mem_cons]
    rintro (rfl | hsn)
    · exact (List.nodup_cons.mp hnd).1 ha
    · exact hdisj a (List.mem_cons_of_mem x ha) hsn

theorem dedupKeepFirst_eq_self {α : Type} [DecidableEq α] (l : List α) (h : l.Nodup) :
    dedupKeepFirst l = l :=
  dedupSeen_eq_self [] l h (fun _ _ => List.not_mem_nil _)

/-- The spec's reading of `drop_duplicates`: keep each row, removing every
later exact duplicate of it; what survives is the first occurrence of each
distinct row, in the original order. -/
def firstOccurrences {α : Type} [DecidableEq α] : List α → List α
  | [] => []
  | x :: xs => x :: firstOccurrences (xs.filter (· ≠ x))
  termination_by l => l.length
  decreasing_by
    simp only [List.length_cons]
    exact Nat.lt_succ_of_le (List.length_filter_le _ _)

theorem firstOccurrences_nil {α : Type} [DecidableEq α] :
    firstOccurrences ([] : List α) = [] := by
  rw [firstOccurrences.eq_def]

theorem firstOccurrences_cons {α : Type} [DecidableEq α] (x : α) (xs : List α) :
    firstOccurrences (x :: xs) = x :: firstOccurrences (xs.filter (· ≠ x)) := by
  rw [firstOccurrences.eq_def]

theorem dedupSeen_eq_firstOccurrences {α : Type} [DecidableEq α] (seen : List α) :
    ∀ l : List α, dedupSeen seen l = firstOccurrences (l.filter (· ∉ seen)) := by
  intro l
  induction l generalizing seen with
  | nil => simp [dedupSeen, firstOccurrences_nil]
  | cons x xs ih =>
    by_cases hx : x ∈ seen
    · have hfx : (decide (x ∉ seen)) = false := by simp [hx]
      simp only [dedupSeen, hx, if_pos]
      rw [List.filter_cons_of_neg (p := fun a => decide (a ∉ seen)) (by simpa using hx)]
      exact ih seen
    · have hfx : (decide (x ∉ seen)) = true := by simp [hx]
      simp only [dedupSeen, hx, if_neg, not_false_iff]
      rw [List.filter_cons_of_pos (p := fun a => decide (a ∉ seen)) hfx]
      rw [firstOccurrences_cons, ih (x :: seen), List.filter_filter]
      congr 1
      congr 1
      apply List.filter_congr
      intro a _
      by_cases h1 : a = x <;> by_cases h2 : a ∈ seen <;> simp_all [List.mem_cons]

theorem dedupKeepFirst_eq_firstOccurrences {α : Type} [DecidableEq α] (l : List α) :
    dedupKeepFirst l = firstOccurrences l := by
  rw [dedupKeepFirst, dedupSeen_eq_firstOccurrences]
  congr 1
  exact List.filter_eq_self.mpr (fun a _ => by simp)

/-! ### Row-filling lemmas -/

theorem length_fillRow (fs cs : List Cell) : (fillRow fs cs).length = cs.length := by
  induction cs generalizing fs with
  | nil => cases fs <;> rfl
  | cons c cs ih =>
    cases fs with
    | nil => rfl
    | cons f fs => simp [fillRow, ih]

theorem getElem?_fillRow (fs cs : List Cell) (j : Nat) :
    (fillRow fs cs)[j]? =
      (cs[j]?).map (fun c => if c = Cell.na then fs.getD j Cell.na else c) := by
  induction cs generalizing fs j with
  | nil => cases fs <;> simp [fillRow]
  | cons c cs ih =>
    cases fs with
    | nil =>
      show (c :: cs)[j]? = _
      cases j with
      | zero =>
        by_cases hc : c = Cell.na <;> simp [hc]
      | succ j =>
        simp only [List.getElem?_cons_succ]
        cases hcj : cs[j]? with
        | none => simp
        | some c2 => by_cases hc : c2 = Cell.na <;> simp [hc]
    | cons f fs =>
      cases j with
      | zero => simp [fillRow]
      | succ j => simp [fillRow, ih]

theorem length_colFillsAux (rows : List (List Cell)) :
    ∀ (hs : List (String × Dtype)) (k : Nat), (colFillsAux rows hs k).length = hs.length := by
  intro hs
  induction hs with
  | nil => intro k; rfl
  | cons h hs ih => intro k; simp [colFillsAux, ih]

theorem getD_colFillsAux (rows : List (List Cell)) :
    ∀ (hs : List (String × Dtype)) (k j : Nat),
      (colFillsAux rows hs k).getD j Cell.na =
        (match hs[j]? with
         | some h => colFill rows (k + j) h.2
         | none => Cell.na) := by
  intro hs
  induction hs with
  | nil => intro k j; simp [colFillsAux]
  | cons h hs ih =>
    intro k j
    cases j with
    | zero => simp [colFillsAux]
    | succ j =>
      simp only [colFillsAux, List.getD_cons_succ, List.getElem?_cons_succ, ih (k + 1) j]
      have harith : k + 1 + j = k + (j + 1) := by omega
      rw [harith]

/-! ### Median lemmas -/

theorem median_eq_none_iff (l : List ℚ) : median l = none ↔ l = [] := by
  by_cases h : l = []
  · subst h; simp [median]
  · have hlen : (List.insertionSort (· ≤ ·) l).length ≠ 0 := by
      rw [List.length_insertionSort]
      exact fun hc => h (List.length_eq_zero.mp hc)
    constructor
    · intro hc
      rw [median] at hc
      simp only [hlen, if_neg, not_false_iff] at hc
      split at hc <;> simp at hc
    · intro hc; exact absurd hc h

theorem median_isSome (l : List ℚ) (h : l ≠ []) : ∃ m, median l = some m := by
  have := (median_eq_none_iff l).not.mpr h
  cases hm : median l with
  | none => exact absurd hm this
  | some m => exact ⟨m, rfl⟩

theorem ratsOf_eq_nil_iff (cells : List Cell) :
    ratsOf cells = [] ↔ ∀ q : ℚ, Cell.num q ∉ cells := by
  rw [ratsOf, List.filterMap_eq_nil_iff]
  constructor
  · intro h q hq
    have := h _ hq
    simp at this
  · intro h c hc
    cases c with
    | num q => exact absurd hc (h q)
    | na => rfl
    | str s => rfl
    | date d => rfl

/-! ### Cell access through `basic_cleaning` -/

theorem cellD_map_fillRow (F : List Cell) (rows : List (List Cell)) (i j : Nat) :
    ((rows.map (fillRow F)).getD i []).getD j Cell.na =
      (match rows[i]? with
       | none => Cell.na
       | some r =>
         match r[j]? with
         | none => Cell.na
         | some c => if c = Cell.na then F.getD j Cell.na else c) := by
  rw [List.getD_eq_getElem?_getD, List.getD_eq_getElem?_getD, List.getElem?_map]
  cases hr : rows[i]? with
  | none => simp
  | some r =>
    simp only [Option.map_some', Option.getD_some]
    rw [getElem?_fillRow]
    cases hc : r[j]? with
    | none => simp
    | some c => simp

theorem colCells_map_fillRow_of_na (F : List Cell) (rows : List (List Cell)) (j : Nat)
    (h : F.getD j Cell.na = Cell.na) :
    colCells (rows.map (fillRow F)) j = colCells rows j := by
  rw [List.getD_eq_getElem?_getD] at h
  unfold colCells
  rw [List.map_map]
  apply List.map_congr_left
  intro r _
  show (fillRow F r).getD j Cell.na = r.getD j Cell.na
  rw [List.getD_eq_getElem?_getD, getElem?_fillRow]
  cases hc : r[j]? with
  | none => simp [List.getD_eq_getElem?_getD, hc]
  | some c =>
    by_cases hcna : c = Cell.na <;> simp [List.getD_eq_getElem?_getD, hc, hcna, h]

theorem getD_colFills (rows : List (List Cell)) (hs : List (String × Dtype)) (j : Nat) :
    (colFillsAux rows hs 0).getD j Cell.na =
      (match hs[j]? with
       | some h => colFill rows j h.2
       | none => Cell.na) := by
  rw [getD_colFillsAux]
  cases hs[j]? <;> simp

theorem cell_of_clean (df : DataFrame) (i j : Nat) :
    ((basic_cleaning df).rows.getD i []).getD j Cell.na =
      (match (dedupKeepFirst df.rows)[i]? with
       | none => Cell.na
       | some r =>
         match r[j]? with
         | none => Cell.na
         | some c =>
           if c = Cell.na then
             (colFillsAux (dedupKeepFirst df.rows) df.header 0).getD j Cell.na
           else c) :=
  cellD_map_fillRow _ _ i j

theorem getD_ne_na (r : List Cell) (j : Nat) (h : r.getD j Cell.na ≠ Cell.na) :
    r[j]? = some (r.getD j Cell.na) := by
  cases hc : r[j]? with
  | none => rw [List.getD_eq_getElem?_getD, hc] at h; simp at h
  | some c => rw [List.getD_eq_getElem?_getD, hc]; rfl

/-- If a missing cell survives the fill at column `j` of the cleaned rows
(the fill value of `j` is itself `na`), the fill value of `j` recomputed on
the cleaned rows is still `na`. -/
theorem fills_na_stable (df : DataFrame) (j : Nat)
    (h : (colFillsAux (dedupKeepFirst df.rows) df.header 0).getD j Cell.na = Cell.na) :
    (colFillsAux
        ((dedupKeepFirst df.rows).map
          (fillRow (colFillsAux (dedupKeepFirst df.rows) df.header 0)))
        df.header 0).getD j Cell.na = Cell.na := by
  rw [getD_colFills] at h ⊢
  cases hh : df.header[j]? with
  | none => rfl
  | some hcol =>
    rw [hh] at h
    have h' : colFill (dedupKeepFirst df.rows) j hcol.2 = Cell.na := h
    show colFill
        ((dedupKeepFirst df.rows).map
          (fillRow (colFillsAux (dedupKeepFirst df.rows) df.header 0)))
        j hcol.2 = Cell.na
    obtain ⟨nm, dt⟩ := hcol
    cases dt with
    | obj => simp [colFill] at h'
    | date => rfl
    | num =>
      simp only [colFill] at h' ⊢
      cases hmed : median (ratsOf (colCells (dedupKeepFirst df.rows) j)) with
      | some m => rw [hmed] at h'; simp at h'
      | none =>
        rw [colCells_map_fillRow_of_na _ _ _ (by rw [getD_colFills, hh]; exact h), hmed]

/-! ### The cleaning contract (C2) -/

/-- The spec's cleaning contract, at a given dataset: deduplication keeps
exactly the first occurrence of each row in order, and each surviving row's
cells are filled per the policy — numeric missing cells get the column's
median computed after deduplication (`na` when that median is undefined),
text missing cells get the placeholder `"Missing"`, all other cells are
untouched. -/
def CleaningContract (df : DataFrame) : Prop :=
  (dedupKeepFirst df.rows = firstOccurrences df.rows ∧
    (dedupKeepFirst df.rows).Sublist df.rows ∧
    (dedupKeepFirst df.rows).Nodup ∧
    (∀ r : List Cell, r ∈ dedupKeepFirst df.rows ↔ r ∈ df.rows)) ∧
  (basic_cleaning df).header = df.header ∧
  (basic_cleaning df).rows.length = (dedupKeepFirst df.rows).length ∧
  (∀ i j : Nat, i < (dedupKeepFirst df.rows).length → j < df.header.length →
    (((dedupKeepFirst df.rows).getD i []).getD j Cell.na ≠ Cell.na →
      ((basic_cleaning df).rows.getD i []).getD j Cell.na =
        ((dedupKeepFirst df.rows).getD i []).getD j Cell.na) ∧
    (((dedupKeepFirst df.rows).getD i []).getD j Cell.na = Cell.na →
      (df.header.getD j ("", Dtype.obj)).2 = Dtype.num →
      ((basic_cleaning df).rows.getD i []).getD j Cell.na =
        (match median (ratsOf (colCells (dedupKeepFirst df.rows) j)) with
         | some m => Cell.num m
         | none => Cell.na)) ∧
    (((dedupKeepFirst df.rows).getD i []).getD j Cell.na = Cell.na →
      (df.header.getD j ("", Dtype.obj)).2 = Dtype.obj →
      ((basic_cleaning df).rows.getD i []).getD j Cell.na = Cell.str "Missing"))

/-- C2: cleaning removes exact duplicate rows keeping first occurrences in
order, fills each numeric column's missing cells with that column's
post-deduplication median, and fills each text column's missing cells with
the literal `"Missing"`. -/
theorem getElem?_eq_some_getD {α : Type} (l : List α) (i : Nat) (d : α) (h : i < l.length) :
    l[i]? = some (l.getD i d) := by
  rw [List.getD_eq_getElem?_getD, List.getElem?_eq_getElem h]
  rfl

theorem basic_cleaning_contract (df : DataFrame) (hwf : df.Wf) :
    CleaningContract df := by
  refine ⟨⟨dedupKeepFirst_eq_firstOccurrences _, dedupKeepFirst_sublist _,
    nodup_dedupKeepFirst _, fun r => mem_dedupKeepFirst r _⟩, rfl,
    List.length_map _ _, ?_⟩
  intro i j hi hj
  have hri : (dedupKeepFirst df.rows)[i]? = some ((dedupKeepFirst df.rows).getD i []) :=
    getElem?_eq_some_getD _ i [] hi
  have hrmem : (dedupKeepFirst df.rows).getD i [] ∈ df.rows := by
    refine (dedupKeepFirst_sublist df.rows).mem ?_
    rw [List.getD_eq_getElem?_getD, List.getElem?_eq_getElem hi]
    exact List.getElem_mem hi
  have hrlen : ((dedupKeepFirst df.rows).getD i []).length = df.header.length :=
    hwf _ hrmem
  have hjr : j < ((dedupKeepFirst df.rows).getD i []).length := hrlen ▸ hj
  have hcj : ((dedupKeepFirst df.rows).getD i [])[j]? =
      some (((dedupKeepFirst df.rows).getD i []).getD j Cell.na) :=
    getElem?_eq_some_getD _ j Cell.na hjr
  have hhj : df.header[j]? = some (df.header.getD j ("", Dtype.obj)) :=
    getElem?_eq_some_getD _ j ("", Dtype.obj) hj
  refine ⟨?_, ?_, ?_⟩
  · intro hne
    simp only [cell_of_clean, hri, hcj]
    rw [if_neg hne]
  · intro hna hdt
    simp only [cell_of_clean, hri, hcj, getD_colFills, hhj]
    rw [if_pos hna, hdt]
    rfl
  · intro hna hdt
    simp only [cell_of_clean, hri, hcj, getD_colFills, hhj]
    rw [if_pos hna, hdt]
    rfl

/-- Witness for C2 at a concrete dataset: two numeric/text columns, one
duplicate row, one missing number and one missing text value. -/
theorem basic_cleaning_contract_witness :
    CleaningContract
      { header := [("amount", Dtype.num), ("name", Dtype.obj)],
        rows := [[Cell.num 1, Cell.str "a"], [Cell.num 1, Cell.str "a"],
                 [Cell.na, Cell.na], [Cell.num 3, Cell.str "b"]] } :=
  basic_cleaning_contract _ (by decide)

/-! ### Frame of cleaning (C9) and its limits (C3, C4) -/

/-- C9: cleaning preserves the schema (same columns, same order) and never
alters a non-missing cell of a surviving row; the surviving rows are a
subsequence of the input rows. -/
theorem cleaning_frame (df : DataFrame) :
    (basic_cleaning df).header = df.header ∧
    (dedupKeepFirst df.rows).Sublist df.rows ∧
    (basic_cleaning df).rows.length = (dedupKeepFirst df.rows).length ∧
    ∀ i j : Nat,
      ((dedupKeepFirst df.rows).getD i []).getD j Cell.na ≠ Cell.na →
      ((basic_cleaning df).rows.getD i []).getD j Cell.na =
        ((dedupKeepFirst df.rows).getD i []).getD j Cell.na := by
  refine ⟨rfl, dedupKeepFirst_sublist _, List.length_map _ _, ?_⟩
  intro i j hne
  by_cases hi : i < (dedupKeepFirst df.rows).length
  · have hri : (dedupKeepFirst df.rows)[i]? = some ((dedupKeepFirst df.rows).getD i []) :=
      getElem?_eq_some_getD _ i [] hi
    have hcj := getD_ne_na _ j hne
    simp only [cell_of_clean, hri, hcj]
    rw [if_neg hne]
  · exfalso
    apply hne
    rw [List.getD_eq_getElem?_getD (dedupKeepFirst df.rows) i,
      List.getElem?_eq_none (Nat.le_of_not_lt hi)]
    rfl

/-- C3, counterexample: on a single numeric column holding a missing cell
and the value 2, cleaning fills the missing cell with the median 2 and the
result has two identical rows, so the cleaned dataset is not duplicate-free. -/
theorem cleaning_result_not_dupfree :
    ¬ (basic_cleaning
        { header := [("a", Dtype.num)],
          rows := [[Cell.na], [Cell.num 2]] }).rows.Nodup := by
  decide

/-- C3's property at one dataset, amended: after cleaning there is no missing
cell in any text column, nor in any numeric column that has at least one
numeric value in the input; deduplication itself yields duplicate-free rows
(though the subsequent filling may re-create equal rows). -/
def NoMissingAfterClean (df : DataFrame) : Prop :=
  (∀ r ∈ (basic_cleaning df).rows, ∀ j : Nat, j < df.header.length →
    ((df.header.getD j ("", Dtype.obj)).2 = Dtype.obj →
      r.getD j Cell.na ≠ Cell.na) ∧
    ((df.header.getD j ("", Dtype.obj)).2 = Dtype.num →
      ratsOf (colCells df.rows j) ≠ [] →
      r.getD j Cell.na ≠ Cell.na)) ∧
  (dedupKeepFirst df.rows).Nodup

/-- C3 amended: for all well-formed datasets, the cleaned result has no
missing text cells and no missing cells in numeric columns with at least one
non-missing numeric value (a numeric column with none keeps its cells
missing); the deduplication stage produces duplicate-free rows, but filling
may re-introduce equal rows. -/
theorem cleaning_no_missing (df : DataFrame) (hwf : df.Wf) :
    NoMissingAfterClean df := by
  refine ⟨?_, nodup_dedupKeepFirst _⟩
  intro r hr j hj
  obtain ⟨r1, hr1, rfl⟩ := List.mem_map.mp hr
  have hr1mem : r1 ∈ df.rows := (dedupKeepFirst_sublist df.rows).mem hr1
  have hr1len : r1.length = df.header.length := hwf _ hr1mem
  have hjr : j < r1.length := hr1len ▸ hj
  have hcj : r1[j]? = some (r1.getD j Cell.na) := getElem?_eq_some_getD _ j Cell.na hjr
  have hhj : df.header[j]? = some (df.header.getD j ("", Dtype.obj)) :=
    getElem?_eq_some_getD _ j ("", Dtype.obj) hj
  have hcell : (fillRow (colFillsAux (dedupKeepFirst df.rows) df.header 0) r1).getD j Cell.na
      = (if r1.getD j Cell.na = Cell.na
          then (colFillsAux (dedupKeepFirst df.rows) df.header 0).getD j Cell.na
          else r1.getD j Cell.na) := by
    rw [List.getD_eq_getElem?_getD, getElem?_fillRow, hcj]
    rfl
  constructor
  · intro hdt
    rw [hcell]
    by_cases hna : r1.getD j Cell.na = Cell.na
    · rw [if_pos hna, getD_colFills, hhj]
      show colFill (dedupKeepFirst df.rows) j (df.header.getD j ("", Dtype.obj)).2 ≠ Cell.na
      rw [hdt]
      simp [colFill]
    · rw [if_neg hna]; exact hna
  · intro hdt hq
    rw [hcell]
    by_cases hna : r1.getD j Cell.na = Cell.na
    · rw [if_pos hna, getD_colFills, hhj]
      show colFill (dedupKeepFirst df.rows) j (df.header.getD j ("", Dtype.obj)).2 ≠ Cell.na
      rw [hdt]
      -- the deduplicated column has a numeric value, so the median is defined
      have hne : ratsOf (colCells (dedupKeepFirst df.rows) j) ≠ [] := by
        intro hnil
        apply hq
        rw [ratsOf_eq_nil_iff] at hnil ⊢
        intro q hmem
        obtain ⟨r2, hr2, hr2c⟩ := List.mem_map.mp hmem
        exact hnil q (List.mem_map.mpr
          ⟨r2, (mem_dedupKeepFirst r2 df.rows).mpr hr2, hr2c⟩)
      obtain ⟨m, hm⟩ := median_isSome _ hne
      simp [colFill, hm]
    · rw [if_neg hna]; exact hna

/-- Witness for C3 amended at a concrete dataset with a duplicate row, a
missing number, a missing text value and an all-missing numeric column. -/
theorem cleaning_no_missing_witness :
    NoMissingAfterClean
      { header := [("amount", Dtype.num), ("name", Dtype.obj), ("empty", Dtype.num)],
        rows := [[Cell.num 1, Cell.str "a", Cell.na],
                 [Cell.num 1, Cell.str "a", Cell.na],
                 [Cell.na, Cell.na, Cell.na]] } :=
  cleaning_no_missing _ (by decide)

/-- C4, counterexample: cleaning is not idempotent.  On a single numeric
column with rows `[missing]` and `[2]`, one cleaning pass keeps both rows and
fills the missing cell with the median 2, giving two equal rows `[2]`, `[2]`;
a second pass deduplicates them to a single row. -/
theorem cleaning_not_idempotent :
    basic_cleaning (basic_cleaning
      { header := [("a", Dtype.num)], rows := [[Cell.na], [Cell.num 2]] }) ≠
    basic_cleaning
      { header := [("a", Dtype.num)], rows := [[Cell.na], [Cell.num 2]] } := by
  decide

/-- C4 amended: cleaning is idempotent on every dataset whose cleaned rows
are duplicate-free (equivalently, whenever the fill step does not re-create
equal rows; the counterexample shows the hypothesis is needed). -/
theorem cleaning_idempotent_of_nodup (df : DataFrame)
    (h : (basic_cleaning df).rows.Nodup) :
    basic_cleaning (basic_cleaning df) = basic_cleaning df := by
  have hded : dedupKeepFirst (basic_cleaning df).rows = (basic_cleaning df).rows :=
    dedupKeepFirst_eq_self _ h
  show ({ header := (basic_cleaning df).header,
          rows := (dedupKeepFirst (basic_cleaning df).rows).map
            (fillRow (colFillsAux (dedupKeepFirst (basic_cleaning df).rows)
              (basic_cleaning df).header 0)) } : DataFrame) = basic_cleaning df
  rw [hded]
  have hmap : (basic_cleaning df).rows.map
      (fillRow (colFillsAux (basic_cleaning df).rows (basic_cleaning df).header 0)) =
      (basic_cleaning df).rows := by
    refine (List.map_congr_left ?_).trans (List.map_id _)
    intro r hr
    show fillRow (colFillsAux (basic_cleaning df).rows (basic_cleaning df).header 0) r = r
    apply List.ext_getElem?
    intro j
    rw [getElem?_fillRow]
    cases hc : r[j]? with
    | none => rfl
    | some c =>
      by_cases hcna : c = Cell.na
      · subst hcna
        -- a cell that is still missing after cleaning sits in a column whose
        -- fill value is `na`, and recomputing the fills keeps it `na`
        obtain ⟨r1, hr1, rfl⟩ := List.mem_map.mp hr
        rw [getElem?_fillRow] at hc
        obtain ⟨c1, hc1, hc1v⟩ := Option.map_eq_some'.mp hc
        by_cases hc1na : c1 = Cell.na
        · rw [if_pos hc1na] at hc1v
          have hstable : (colFillsAux (basic_cleaning df).rows
              (basic_cleaning df).header 0).getD j Cell.na = Cell.na :=
            fills_na_stable df j hc1v
          rw [List.getD_eq_getElem?_getD] at hstable
          simp [hstable]
        · rw [if_neg hc1na] at hc1v
          exact absurd hc1v hc1na
      · simp [hcna]
  rw [hmap]

/-- Witness for C4 amended: a dataset whose cleaned rows are duplicate-free. -/
theorem cleaning_idempotent_of_nodup_witness :
    basic_cleaning (basic_cleaning
      { header := [("a", Dtype.num)], rows := [[Cell.num 1], [Cell.num 2], [Cell.num 1]] }) =
    basic_cleaning
      { header := [("a", Dtype.num)], rows := [[Cell.num 1], [Cell.num 2], [Cell.num 1]] } :=
  cleaning_idempotent_of_nodup _ (by decide)

/-! ### Column selection (lines 110-115) -/

/-- The index of the column named `n` (the position `df[n]` reads from);
`hdr.length` when no column has that name. -/
def colIdx (hdr : List (String × Dtype)) (n : String) : Nat :=
  hdr.findIdx (fun p => p.1 == n)

/-- Column selection: `if selected_columns: df = df[selected_columns]`.
An empty selection leaves the dataset untouched (pass-through); a non-empty
selection keeps exactly the requested columns, in the requested order. -/
def selectColumns (df : DataFrame) (sel : List String) : DataFrame :=
  if sel = [] then df
  else
    { header := sel.map (fun n => df.header.getD (colIdx df.header n) (n, Dtype.obj)),
      rows := df.rows.map (fun r => sel.map (fun n => r.getD (colIdx df.header n) Cell.na)) }

theorem colIdx_getElem (hdr : List (String × Dtype)) (hnd : (hdr.map Prod.fst).Nodup) :
    ∀ (j : Nat), (hj : j < hdr.length) → colIdx hdr (hdr.get ⟨j, hj⟩).1 = j := by
  induction hdr with
  | nil => intro j hj; simp at hj
  | cons h hs ih =>
    intro j hj
    cases j with
    | zero => simp [colIdx, List.findIdx_cons]
    | succ j =>
      have hj2 : j < hs.length := Nat.lt_of_succ_lt_succ hj
      have hmem : (hs.get ⟨j, hj2⟩).1 ∈ hs.map Prod.fst :=
        List.mem_map.mpr ⟨hs.get ⟨j, hj2⟩, List.get_mem hs j hj2, rfl⟩
      have hne : (h.1 == (hs.get ⟨j, hj2⟩).1) = false := by
        rw [beq_eq_false_iff_ne]
        intro hcontra
        exact (List.nodup_cons.mp (by simpa using hnd)).1 (hcontra ▸ hmem)
      have ihs := ih (List.Nodup.of_cons (by simpa using hnd)) j hj2
      simp only [colIdx, List.findIdx_cons, List.get_eq_getElem] at ihs hne ⊢
      simp [hne, ihs]

theorem colIdx_lt_length (hdr : List (String × Dtype)) (n : String)
    (h : n ∈ hdr.map Prod.fst) : colIdx hdr n < hdr.length := by
  induction hdr with
  | nil => simp at h
  | cons p hs ih =>
    by_cases hp : (p.1 == n) = true
    · simp [colIdx, List.findIdx_cons, hp]
    · have hpf : (p.1 == n) = false := by simpa using hp
      have hn : n ∈ hs.map Prod.fst := by
        rw [List.map_cons] at h
        rcases List.mem_cons.mp h with hcase | hcase
        · exact absurd (beq_iff_eq.mpr hcase.symm) hp
        · exact hcase
      have hlt := ih hn
      simp only [colIdx, List.findIdx_cons, hpf, cond_false, List.length_cons] at hlt ⊢
      omega

theorem fst_getD_colIdx (hdr : List (String × Dtype)) (n : String) (d : String × Dtype)
    (h : n ∈ hdr.map Prod.fst) : (hdr.getD (colIdx hdr n) d).1 = n := by
  induction hdr with
  | nil => simp at h
  | cons p hs ih =>
    by_cases hp : (p.1 == n) = true
    · have h0 : colIdx (p :: hs) n = 0 := by simp [colIdx, List.findIdx_cons, hp]
      rw [h0]
      show p.1 = n
      exact beq_iff_eq.mp hp
    · have hpf : (p.1 == n) = false := by simpa using hp
      have hn : n ∈ hs.map Prod.fst := by
        rw [List.map_cons] at h
        rcases List.mem_cons.mp h with hcase | hcase
        · exact absurd (beq_iff_eq.mpr hcase.symm) hp
        · exact hcase
      have hstep : colIdx (p :: hs) n = colIdx hs n + 1 := by
        simp [colIdx, List.findIdx_cons, hpf]
      rw [hstep, List.getD_cons_succ]
      exact ih hn

theorem map_getD_colIdx_eq_self (hdr : List (String × Dtype))
    (hnd : (hdr.map Prod.fst).Nodup) (r : List Cell) (hlen : r.length = hdr.length) :
    (hdr.map Prod.fst).map (fun n => r.getD (colIdx hdr n) Cell.na) = r := by
  apply List.ext_getElem?
  intro k
  rw [List.getElem?_map]
  by_cases hk : k < hdr.length
  · have h1 : (hdr.map Prod.fst)[k]? = some ((hdr.get ⟨k, hk⟩).1) := by
      rw [List.getElem?_map, List.getElem?_eq_getElem hk]
      rfl
    have hkr : k < r.length := by rw [hlen]; exact hk
    rw [h1, List.getElem?_eq_getElem hkr]
    show some (r.getD (colIdx hdr (hdr.get ⟨k, hk⟩).1) Cell.na) = _
    rw [colIdx_getElem hdr hnd k hk, List.getD_eq_getElem?_getD, List.getElem?_eq_getElem hkr]
    rfl
  · have h1 : (hdr.map Prod.fst)[k]? = none :=
      List.getElem?_eq_none (by simpa using Nat.le_of_not_lt hk)
    rw [h1, List.getElem?_eq_none (by rw [hlen]; exact Nat.le_of_not_lt hk)]
    rfl

theorem map_header_getD_colIdx (hdr : List (String × Dtype))
    (hnd : (hdr.map Prod.fst).Nodup) :
    (hdr.map Prod.fst).map (fun n => hdr.getD (colIdx hdr n) (n, Dtype.obj)) = hdr := by
  apply List.ext_getElem?
  intro k
  rw [List.getElem?_map]
  by_cases hk : k < hdr.length
  · have h1 : (hdr.map Prod.fst)[k]? = some ((hdr.get ⟨k, hk⟩).1) := by
      rw [List.getElem?_map, List.getElem?_eq_getElem hk]
      rfl
    rw [h1, List.getElem?_eq_getElem hk]
    show some (hdr.getD (colIdx hdr (hdr.get ⟨k, hk⟩).1) _) = _
    rw [colIdx_getElem hdr hnd k hk, List.getD_eq_getElem?_getD, List.getElem?_eq_getElem hk]
    rfl
  · have h1 : (hdr.map Prod.fst)[k]? = none :=
      List.getElem?_eq_none (by simpa using Nat.le_of_not_lt hk)
    rw [h1, List.getElem?_eq_none (Nat.le_of_not_lt hk)]
    rfl

/-- The spec's column-selection policy at a dataset and a requested list of
column names: empty selection is a pass-through (the dataset is returned
unchanged, not restricted to zero columns), selecting all current columns in
order is a no-op, and a non-empty selection of existing names yields exactly
the requested columns, in the requested order, with each kept column's cells
equal to the source column's cells. -/
def SelectionPolicy (df : DataFrame) (sel : List String) : Prop :=
  selectColumns df [] = df ∧
  selectColumns df (df.header.map Prod.fst) = df ∧
  (sel ≠ [] → (∀ n ∈ sel, n ∈ df.header.map Prod.fst) →
    ((selectColumns df sel).header.map Prod.fst = sel ∧
     (selectColumns df sel).rows.length = df.rows.length ∧
     ∀ k : Nat, k < sel.length →
       colCells (selectColumns df sel).rows k =
         colCells df.rows (colIdx df.header (sel.getD k ""))))

/-- C5: column selection with the empty set is a pass-through, with the full
current column list it returns the dataset unchanged, and with any non-empty
subset of existing names it keeps exactly those columns in the requested
order. -/
theorem column_selection_policy (df : DataFrame) (sel : List String)
    (hnd : (df.header.map Prod.fst).Nodup) (hwf : df.Wf) :
    SelectionPolicy df sel := by
  refine ⟨by simp [selectColumns], ?_, ?_⟩
  · by_cases hemp : df.header.map Prod.fst = []
    · rw [hemp]; simp [selectColumns]
    · cases df with
      | mk hdr rows =>
        simp only at hemp hnd hwf
        simp only [selectColumns, if_neg hemp]
        congr 1
        · exact map_header_getD_colIdx hdr hnd
        · refine (List.map_congr_left ?_).trans (List.map_id _)
          intro r hr
          exact map_getD_colIdx_eq_self hdr hnd r (hwf r hr)
  · intro hne hsub
    refine ⟨?_, ?_, ?_⟩
    · simp only [selectColumns, if_neg hne]
      rw [List.map_map]
      refine (List.map_congr_left ?_).trans (List.map_id _)
      intro n hn
      exact fst_getD_colIdx df.header n _ (hsub n hn)
    · simp only [selectColumns, if_neg hne]
      exact List.length_map _ _
    · intro k hk
      simp only [selectColumns, if_neg hne, colCells]
      rw [List.map_map]
      apply List.map_congr_left
      intro r _
      have hsk : sel[k]? = some (sel.getD k "") := getElem?_eq_some_getD sel k "" hk
      show (sel.map (fun n => r.getD (colIdx df.header n) Cell.na)).getD k Cell.na = _
      rw [List.getD_eq_getElem?_getD, List.getElem?_map, hsk]
      rfl

/-- Witness for C5: a three-column dataset, selecting two columns in a
different order. -/
theorem column_selection_policy_witness :
    SelectionPolicy
      { header := [("a", Dtype.num), ("b", Dtype.obj), ("c", Dtype.num)],
        rows := [[Cell.num 1, Cell.str "x", Cell.num 2]] }
      ["c", "a"] :=
  column_selection_policy _ _ (by decide) (by decide)

/-! ### Numeric coercion (lines 118-124) -/

/-- Digits-only parse of a character list. -/
def parseNatDigits (cs : List Char) : Option Nat :=
  if cs ≠ [] ∧ cs.all Char.isDigit then
    some (cs.foldl (fun a c => a * 10 + (c.toNat - 48)) 0)
  else none

/-- Decimal digits with an optional fractional part, already split from an
optional leading minus sign. -/
def parseRatSigned (neg : Bool) (cs1 : List Char) : Option ℚ :=
  let intPart := cs1.takeWhile (· ≠ '.')
  let rest := cs1.dropWhile (· ≠ '.')
  match rest with
  | [] => (parseNatDigits intPart).map (fun a => if neg then -(a : ℚ) else (a : ℚ))
  | _ :: frac =>
      match parseNatDigits intPart, parseNatDigits frac with
      | some a, some b =>
          some (if neg then -((a : ℚ) + (b : ℚ) / ((10 : ℚ) ^ frac.length))
                else (a : ℚ) + (b : ℚ) / ((10 : ℚ) ^ frac.length))
      | _, _ => none

/-- Modelled decimal-number parsing of a text value for
`pd.to_numeric(..., errors='coerce')`: an optional leading minus sign,
digits, and an optional fractional part; anything else fails. -/
def parseRatStr (s : String) : Option ℚ :=
  match s.toList with
  | '-' :: rest => parseRatSigned true rest
  | cs => parseRatSigned false cs

/-- One cell under `pd.to_numeric(..., errors='coerce')`: numbers stay
themselves, date cells take their integer code, text parses as a decimal
number when possible, and a missing or unparseable cell yields nothing. -/
def parseNumCell : Cell → Option ℚ
  | Cell.num q => some q
  | Cell.str s => parseRatStr s
  | Cell.date d => some (d : ℚ)
  | Cell.na => none

/-- The coerced cell: a parsed number, or the missing marker — never an
error. -/
def toNumericCell (c : Cell) : Cell :=
  match parseNumCell c with
  | some q => Cell.num q
  | none => Cell.na

/-- `df[col] = pd.to_numeric(df[col], errors='coerce')` for the column at
index `j`: every cell of that column is re-parsed, the column's dtype
becomes numeric, all other columns are untouched. -/
def coerceColumn (df : DataFrame) (j : Nat) : DataFrame :=
  { header := df.header.set j ((df.header.getD j ("", Dtype.obj)).1, Dtype.num),
    rows := df.rows.map (fun r => r.set j (toNumericCell (r.getD j Cell.na))) }

/-- The conversion loop (lines 118-124): coerce each chosen column in turn. -/
def convertNumeric (df : DataFrame) (cols : List String) : DataFrame :=
  cols.foldl (fun d n => coerceColumn d (colIdx d.header n)) df

/-- A cell that is a valid number or the missing marker. -/
def numOrNa : Cell → Bool
  | Cell.num _ => true
  | Cell.na => true
  | _ => false

theorem numOrNa_toNumericCell (c : Cell) : numOrNa (toNumericCell c) = true := by
  unfold toNumericCell
  cases parseNumCell c <;> rfl

theorem toNumericCell_idem (c : Cell) :
    toNumericCell (toNumericCell c) = toNumericCell c := by
  cases hc : parseNumCell c with
  | none =>
    unfold toNumericCell
    rw [hc]
    rfl
  | some q =>
    unfold toNumericCell
    rw [hc]
    rfl

theorem coerceColumn_names (df : DataFrame) (j : Nat) :
    (coerceColumn df j).header.map Prod.fst = df.header.map Prod.fst := by
  show (df.header.set j ((df.header.getD j ("", Dtype.obj)).1, Dtype.num)).map Prod.fst
      = df.header.map Prod.fst
  apply List.ext_getElem?
  intro i
  rw [List.getElem?_map, List.getElem?_map, List.getElem?_set]
  by_cases hij : j = i
  · subst hij
    simp only [if_pos rfl]
    by_cases hj : j < df.header.length
    · rw [if_pos hj, List.getElem?_eq_getElem hj]
      show some (df.header.getD j ("", Dtype.obj)).1 = _
      rw [List.getD_eq_getElem?_getD, List.getElem?_eq_getElem hj]
      rfl
    · rw [if_neg hj, List.getElem?_eq_none (Nat.le_of_not_lt hj)]
      rfl
  · rw [if_neg hij]

theorem colIdx_congr (hdr1 hdr2 : List (String × Dtype)) (n : String)
    (h : hdr1.map Prod.fst = hdr2.map Prod.fst) : colIdx hdr1 n = colIdx hdr2 n := by
  induction hdr1 generalizing hdr2 with
  | nil =>
    cases hdr2 with
    | nil => rfl
    | cons q ts => simp at h
  | cons p hs ih =>
    cases hdr2 with
    | nil => simp at h
    | cons q ts =>
      simp only [List.map_cons, List.cons.injEq] at h
      obtain ⟨h1, h2⟩ := h
      have hrec := ih ts h2
      simp only [colIdx, List.findIdx_cons, h1] at hrec ⊢
      rw [hrec]

/-- Every cell of the coerced column `n` of `d` is a number or missing. -/
def CoercedColumnOk (d : DataFrame) (n : String) : Prop :=
  ∀ c ∈ colCells d.rows (colIdx d.header n), numOrNa c = true

theorem getD_set_self (r : List Cell) (j : Nat) (v : Cell) :
    (r.set j v).getD j Cell.na = (if j < r.length then v else Cell.na) := by
  rw [List.getD_eq_getElem?_getD, List.getElem?_set]
  by_cases hj : j < r.length
  · simp [hj]
  · simp [hj]

theorem coerce_self_ok (d : DataFrame) (n : String) :
    CoercedColumnOk (coerceColumn d (colIdx d.header n)) n := by
  intro c hc
  rw [show colIdx (coerceColumn d (colIdx d.header n)).header n = colIdx d.header n from
    colIdx_congr _ _ n (coerceColumn_names d _)] at hc
  obtain ⟨r, hr, rfl⟩ := List.mem_map.mp hc
  obtain ⟨r0, hr0, rfl⟩ := List.mem_map.mp hr
  rw [getD_set_self]
  by_cases hj : colIdx d.header n < r0.length
  · rw [if_pos hj]
    exact numOrNa_toNumericCell _
  · rw [if_neg hj]
    rfl

theorem coerce_preserves_ok (d : DataFrame) (k : Nat) (n : String)
    (h : CoercedColumnOk d n) : CoercedColumnOk (coerceColumn d k) n := by
  intro c hc
  rw [show colIdx (coerceColumn d k).header n = colIdx d.header n from
    colIdx_congr _ _ n (coerceColumn_names d k)] at hc
  obtain ⟨r, hr, rfl⟩ := List.mem_map.mp hc
  obtain ⟨r0, hr0, rfl⟩ := List.mem_map.mp hr
  by_cases hkj : k = colIdx d.header n
  · rw [← hkj, getD_set_self]
    by_cases hj : k < r0.length
    · rw [if_pos hj]
      exact numOrNa_toNumericCell _
    · rw [if_neg hj]
      rfl
  · rw [List.getD_eq_getElem?_getD, List.getElem?_set, if_neg hkj,
      ← List.getD_eq_getElem?_getD]
    exact h _ (List.mem_map.mpr ⟨r0, hr0, rfl⟩)

theorem convert_ok (cols : List String) : ∀ (d : DataFrame) (n : String),
    (CoercedColumnOk d n ∨ n ∈ cols) →
    CoercedColumnOk (cols.foldl (fun d2 m => coerceColumn d2 (colIdx d2.header m)) d) n := by
  induction cols with
  | nil =>
    intro d n h
    rcases h with h | h
    · exact h
    · simp at h
  | cons m rest ih =>
    intro d n h
    show CoercedColumnOk
      (rest.foldl (fun d2 m2 => coerceColumn d2 (colIdx d2.header m2))
        (coerceColumn d (colIdx d.header m))) n
    rcases h with h | h
    · exact ih _ n (Or.inl (coerce_preserves_ok d _ n h))
    · rcases List.mem_cons.mp h with rfl | hr
      · exact ih _ n (Or.inl (coerce_self_ok d n))
      · exact ih _ n (Or.inr hr)

/-- C6's property: the per-cell conversion is total (always a number or the
missing marker), and after the conversion loop every cell of each chosen
column is a number or missing. -/
def CoercionTotal (df : DataFrame) (cols : List String) (n : String) : Prop :=
  (∀ c : Cell, numOrNa (toNumericCell c) = true) ∧
  ∀ c ∈ colCells (convertNumeric df cols).rows
      (colIdx (convertNumeric df cols).header n), numOrNa c = true

/-- C6: numeric coercion is total — for every dataset and every chosen
column, after coercion every cell of that column is either a valid number or
the null marker, and the per-cell conversion never fails. -/
theorem numeric_coercion_total (df : DataFrame) (cols : List String) (n : String)
    (hn : n ∈ cols) : CoercionTotal df cols n :=
  ⟨numOrNa_toNumericCell, convert_ok cols df n (Or.inr hn)⟩

/-- Witness for C6: a text column with parseable and unparseable values. -/
theorem numeric_coercion_total_witness :
    CoercionTotal
      { header := [("a", Dtype.obj), ("b", Dtype.obj)],
        rows := [[Cell.str "12", Cell.str "x"], [Cell.na, Cell.str "3.5"],
                 [Cell.str "oops", Cell.num 7]] }
      ["b"] "b" :=
  numeric_coercion_total _ _ _ (by decide)

theorem coerceColumn_idem (df : DataFrame) (j : Nat) :
    coerceColumn (coerceColumn df j) j = coerceColumn df j := by
  show ({ header := _, rows := _ } : DataFrame) = _
  congr 1
  · -- header: setting the same position twice collapses
    apply List.ext_getElem?
    intro i
    rw [List.getElem?_set]
    by_cases hij : j = i
    · subst hij
      rw [if_pos rfl]
      by_cases hj : j < df.header.length
      · have hlen : j < ((coerceColumn df j).header).length := by
          show j < (df.header.set j _).length
          rw [List.length_set]
          exact hj
        rw [if_pos hlen]
        -- the name read back from the already-coerced header is unchanged
        have hname : ((coerceColumn df j).header.getD j ("", Dtype.obj)).1 =
            (df.header.getD j ("", Dtype.obj)).1 := by
          show ((df.header.set j ((df.header.getD j ("", Dtype.obj)).1, Dtype.num)).getD
            j ("", Dtype.obj)).1 = _
          rw [List.getD_eq_getElem?_getD, List.getElem?_set, if_pos rfl, if_pos hj]
          rfl
        rw [hname]
        show _ = (df.header.set j _)[j]?
        rw [List.getElem?_set, if_pos rfl, if_pos hj]
      · have hlen : ¬ j < ((coerceColumn df j).header).length := by
          show ¬ j < (df.header.set j _).length
          rw [List.length_set]
          exact hj
        rw [if_neg hlen]
        show _ = (df.header.set j _)[j]?
        rw [List.getElem?_set, if_pos rfl, if_neg hj]
    · rw [if_neg hij]
      show (df.header.set j _)[i]? = (df.header.set j _)[i]?
      rfl
  · -- rows: re-coercing an already-coerced column changes nothing
    show ((coerceColumn df j).rows).map _ = (coerceColumn df j).rows
    refine (List.map_congr_left ?_).trans (List.map_id _)
    intro r2 hr2
    obtain ⟨r, hr, rfl⟩ := List.mem_map.mp hr2
    show (r.set j (toNumericCell (r.getD j Cell.na))).set j
      (toNumericCell ((r.set j (toNumericCell (r.getD j Cell.na))).getD j Cell.na)) =
      r.set j (toNumericCell (r.getD j Cell.na))
    rw [getD_set_self]
    by_cases hj : j < r.length
    · rw [if_pos hj, toNumericCell_idem, List.set_set]
    · rw [List.set_eq_of_length_le (by rw [List.length_set]; exact Nat.le_of_not_lt hj)]

/-- C10: numeric coercion is idempotent — coercing a column a second time
(whether through the conversion loop or directly at a column index) yields
the same dataset as coercing it once. -/
theorem numeric_coercion_idempotent (df : DataFrame) (n : String) :
    convertNumeric (convertNumeric df [n]) [n] = convertNumeric df [n] ∧
    ∀ j : Nat, coerceColumn (coerceColumn df j) j = coerceColumn df j := by
  constructor
  · show coerceColumn (coerceColumn df (colIdx df.header n))
      (colIdx (coerceColumn df (colIdx df.header n)).header n) =
      coerceColumn df (colIdx df.header n)
    rw [colIdx_congr _ df.header n (coerceColumn_names df _)]
    exact coerceColumn_idem df _
  · intro j
    exact coerceColumn_idem df j

/-! ### Date-candidate detection (lines 142-150) -/

/-- How many values of a column parse as dates under `pd.to_datetime(...,
errors='coerce')` — the `converted.notna().sum()` of line 147. -/
def parsedCount (parse : Cell → Option Nat) (cells : List Cell) : Nat :=
  (cells.filterMap parse).length

/-- Line 147: `converted.notna().sum() > len(converted) / 2` — the parsed
count is compared against half of the total number of values (the division
is exact, so the comparison is `2 * parsed > length`). -/
def isDateCandidate (parse : Cell → Option Nat) (cells : List Cell) : Bool :=
  decide (2 * parsedCount parse cells > cells.length)

/-- The detection loop (lines 142-150) over the columns starting at index
`k`: collect the names of qualifying columns, in column order. -/
def date_columnsAux (parse : Cell → Option Nat) (rows : List (List Cell)) :
    List (String × Dtype) → Nat → List String
  | [], _ => []
  | h :: hs, k =>
      if isDateCandidate parse (colCells rows k) then
        h.1 :: date_columnsAux parse rows hs (k + 1)
      else date_columnsAux parse rows hs (k + 1)

/-- `date_columns`: the qualifying column names of a dataset. -/
def date_columns (parse : Cell → Option Nat) (df : DataFrame) : List String :=
  date_columnsAux parse df.rows df.header 0

/-- The number of non-missing values of a column. -/
def nonMissingCount (cells : List Cell) : Nat :=
  (cells.filter (· ≠ Cell.na)).length

/-- Split a character list at every dash. -/
def splitOnDash : List Char → List (List Char)
  | [] => [[]]
  | c :: rest =>
      match splitOnDash rest with
      | [] => [[c]]
      | w :: ws => if c = '-' then [] :: w :: ws else (c :: w) :: ws

/-- Modelled `pd.to_datetime(..., errors='coerce')` on one cell, restricted
to ISO `year-month-day` text; a date is coded as `y*10000 + m*100 + d`, so
numeric order is calendar order.  Date cells keep their code; missing,
numeric and other text cells do not parse. -/
def parseDateCell : Cell → Option Nat
  | Cell.str s =>
      (match splitOnDash s.toList with
       | [y, m, d] =>
           (match parseNatDigits y, parseNatDigits m, parseNatDigits d with
            | some yn, some mn, some dn =>
                if 1 ≤ mn ∧ mn ≤ 12 ∧ 1 ≤ dn ∧ dn ≤ 31 then
                  some (yn * 10000 + mn * 100 + dn)
                else none
            | _, _, _ => none)
       | _ => none)
  | Cell.date d => some d
  | _ => none

/-- C1, counterexample: a column of 10 values — 4 missing, 4 parseable
dates, 2 garbage strings.  Strictly more than half of the 6 non-missing
values parse (4 > 3), but the code compares against half of all 10 values
(4 > 5 fails), so the column does not qualify; the claim's reading and the
code disagree. -/
theorem date_candidate_counterexample :
    ¬ (isDateCandidate parseDateCell
        [Cell.na, Cell.na, Cell.na, Cell.na,
         Cell.str "2020-01-01", Cell.str "2020-01-02",
         Cell.str "2020-01-03", Cell.str "2020-01-04",
         Cell.str "zz", Cell.str "yy"] = true ↔
       2 * parsedCount parseDateCell
        [Cell.na, Cell.na, Cell.na, Cell.na,
         Cell.str "2020-01-01", Cell.str "2020-01-02",
         Cell.str "2020-01-03", Cell.str "2020-01-04",
         Cell.str "zz", Cell.str "yy"] >
       nonMissingCount
        [Cell.na, Cell.na, Cell.na, Cell.na,
         Cell.str "2020-01-01", Cell.str "2020-01-02",
         Cell.str "2020-01-03", Cell.str "2020-01-04",
         Cell.str "zz", Cell.str "yy"]) := by
  decide

theorem mem_date_columnsAux (parse : Cell → Option Nat) (rows : List (List Cell)) :
    ∀ (hs : List (String × Dtype)) (k : Nat) (n : String),
      n ∈ date_columnsAux parse rows hs k ↔
        ∃ j : Nat, j < hs.length ∧ (hs.getD j ("", Dtype.obj)).1 = n ∧
          isDateCandidate parse (colCells rows (k + j)) = true := by
  intro hs
  induction hs with
  | nil => intro k n; simp [date_columnsAux]
  | cons h hs ih =>
    intro k n
    simp only [date_columnsAux]
    by_cases hc : isDateCandidate parse (colCells rows k) = true
    · rw [if_pos hc]
      constructor
      · intro hmem
        rcases List.mem_cons.mp hmem with rfl | hmem2
        · exact ⟨0, by simp, by simp, by simpa using hc⟩
        · obtain ⟨j, hj, hn, hcand⟩ := (ih (k + 1) n).mp hmem2
          refine ⟨j + 1, by simpa using Nat.succ_lt_succ hj, by simpa using hn, ?_⟩
          have harith : k + 1 + j = k + (j + 1) := by omega
          rwa [harith] at hcand
      · rintro ⟨j, hj, hn, hcand⟩
        cases j with
        | zero =>
          rw [List.getD_cons_zero] at hn
          rw [← hn]
          exact List.mem_cons_self _ _
        | succ j =>
          refine List.mem_cons_of_mem _ ((ih (k + 1) n).mpr ⟨j, ?_, ?_, ?_⟩)
          · exact Nat.lt_of_succ_lt_succ hj
          · rw [List.getD_cons_succ] at hn
            exact hn
          · have harith : k + 1 + j = k + (j + 1) := by omega
            rwa [harith]
    · rw [if_neg hc]
      constructor
      · intro hmem
        obtain ⟨j, hj, hn, hcand⟩ := (ih (k + 1) n).mp hmem
        refine ⟨j + 1, by simpa using Nat.succ_lt_succ hj, by simpa using hn, ?_⟩
        have harith : k + 1 + j = k + (j + 1) := by omega
        rwa [harith] at hcand
      · rintro ⟨j, hj, hn, hcand⟩
        cases j with
        | zero =>
          rw [Nat.add_zero] at hcand
          exact absurd hcand hc
        | succ j =>
          refine (ih (k + 1) n).mpr ⟨j, ?_, ?_, ?_⟩
          · exact Nat.lt_of_succ_lt_succ hj
          · rw [List.getD_cons_succ] at hn
            exact hn
          · have harith : k + 1 + j = k + (j + 1) := by omega
            rwa [harith]

/-- C1 amended: a column qualifies as a date candidate iff strictly more
than half of ALL its values — missing values included in the denominator —
successfully parse as dates; on columns with no missing values this
coincides with the claim's "more than half of non-missing values" reading,
and the boundary is strict. -/
theorem date_candidate_threshold (parse : Cell → Option Nat) (df : DataFrame) (n : String) :
    (n ∈ date_columns parse df ↔
      ∃ j : Nat, j < df.header.length ∧ (df.header.getD j ("", Dtype.obj)).1 = n ∧
        2 * parsedCount parse (colCells df.rows j) > (colCells df.rows j).length) ∧
    (∀ cells : List Cell, Cell.na ∉ cells →
      (isDateCandidate parse cells = true ↔
        2 * parsedCount parse cells > nonMissingCount cells)) := by
  constructor
  · rw [date_columns, mem_date_columnsAux]
    constructor
    · rintro ⟨j, hj, hn, hcand⟩
      rw [Nat.zero_add] at hcand
      exact ⟨j, hj, hn, by simpa [isDateCandidate] using hcand⟩
    · rintro ⟨j, hj, hn, hgt⟩
      refine ⟨j, hj, hn, ?_⟩
      rw [Nat.zero_add]
      simpa [isDateCandidate] using hgt
  · intro cells hna
    have hfull : cells.filter (· ≠ Cell.na) = cells :=
      List.filter_eq_self.mpr (fun a ha => by
        simp only [decide_eq_true_eq]
        intro hcontra
        exact hna (hcontra ▸ ha))
    rw [isDateCandidate, nonMissingCount, hfull]
    exact decide_eq_true_iff

/-! ### The date view (lines 152-158) -/

/-- One cell under `pd.to_datetime(..., errors='coerce')`: a parsed date, or
the missing marker. -/
def toDateCell (parse : Cell → Option Nat) (c : Cell) : Cell :=
  match parse c with
  | some d => Cell.date d
  | none => Cell.na

/-- `df.groupby(col).size()` on the reparsed column: the distinct date
values (missing keys dropped, as groupby drops `NaT`), in ascending order,
each paired with its row count. -/
def dateCountsOf (vals : List Nat) : List (Nat × Nat) :=
  (List.insertionSort (· ≤ ·) (dedupKeepFirst vals)).map (fun d => (d, vals.count d))

/-- The date view (lines 152-158): destructively reparse the chosen column
to date values in the working dataset, then group rows by date and count. -/
def dateView (parse : Cell → Option Nat) (df : DataFrame) (n : String) :
    DataFrame × List (Nat × Nat) :=
  let j := colIdx df.header n
  let df2 : DataFrame :=
    { header := df.header.set j ((df.header.getD j ("", Dtype.obj)).1, Dtype.date),
      rows := df.rows.map (fun r => r.set j (toDateCell parse (r.getD j Cell.na))) }
  let vals := df2.rows.filterMap (fun r =>
    match r.getD j Cell.na with
    | Cell.date d => some d
    | _ => none)
  (df2, dateCountsOf vals)

theorem dateCountsOf_keys (vals : List Nat) :
    (dateCountsOf vals).map Prod.fst =
      List.insertionSort (· ≤ ·) (dedupKeepFirst vals) := by
  unfold dateCountsOf
  rw [List.map_map]
  refine (List.map_congr_left ?_).trans (List.map_id _)
  intro a _
  rfl

theorem dateCountsOf_keys_sorted (vals : List Nat) :
    ((dateCountsOf vals).map Prod.fst).Pairwise (· < ·) := by
  rw [dateCountsOf_keys]
  have hsort : List.Sorted (· ≤ ·) (List.insertionSort (· ≤ ·) (dedupKeepFirst vals)) :=
    List.sorted_insertionSort _ _
  have hnd : (List.insertionSort (· ≤ ·) (dedupKeepFirst vals)).Nodup :=
    (List.perm_insertionSort _ _).nodup_iff.mpr (nodup_dedupKeepFirst _)
  exact (List.Pairwise.and hsort hnd).imp (fun h => lt_of_le_of_ne h.1 h.2)

theorem mem_dateCountsOf (vals : List Nat) (p : Nat × Nat) (hp : p ∈ dateCountsOf vals) :
    p.2 = vals.count p.1 := by
  unfold dateCountsOf at hp
  obtain ⟨d, hd, rfl⟩ := List.mem_map.mp hp
  rfl

theorem keys_dateCountsOf (vals : List Nat) (d : Nat) :
    d ∈ (dateCountsOf vals).map Prod.fst ↔ d ∈ vals := by
  rw [dateCountsOf_keys, (List.perm_insertionSort _ _).mem_iff, mem_dedupKeepFirst]

/-- The spec's description of the date view: the working dataset keeps all
rows, all columns other than the chosen one (values and schema entries) are
unchanged, the chosen column is destructively reparsed to date values, and
the produced counts map each parsed date to the number of rows carrying it,
with the dates strictly ascending and exactly the parsed (non-missing) dates
of the chosen column. -/
def DateViewSpec (parse : Cell → Option Nat) (df : DataFrame) (n : String) : Prop :=
  (dateView parse df n).1.rows.length = df.rows.length ∧
  (∀ k : Nat, k ≠ colIdx df.header n →
    colCells (dateView parse df n).1.rows k = colCells df.rows k) ∧
  (∀ k : Nat, k ≠ colIdx df.header n →
    (dateView parse df n).1.header.getD k ("", Dtype.obj) =
      df.header.getD k ("", Dtype.obj)) ∧
  (colCells (dateView parse df n).1.rows (colIdx df.header n) =
    (colCells df.rows (colIdx df.header n)).map (toDateCell parse)) ∧
  ((dateView parse df n).2.map Prod.fst).Pairwise (· < ·) ∧
  (∀ p ∈ (dateView parse df n).2,
    p.2 = ((colCells df.rows (colIdx df.header n)).filterMap parse).count p.1) ∧
  (∀ d : Nat, d ∈ (dateView parse df n).2.map Prod.fst ↔
    d ∈ (colCells df.rows (colIdx df.header n)).filterMap parse)

theorem extract_toDate (parse : Cell → Option Nat) (c : Cell) :
    (match toDateCell parse c with
     | Cell.date d => some d
     | _ => none) = parse c := by
  cases hp : parse c with
  | none => simp [toDateCell, hp]
  | some d => simp [toDateCell, hp]

/-- C7: selecting a date column reparses that column (and only that column)
to date values in the working dataset, and the produced result maps each
date value to the count of rows carrying it, ordered by date ascending. -/
theorem date_view_effect (parse : Cell → Option Nat) (df : DataFrame) (n : String)
    (hna : parse Cell.na = none) : DateViewSpec parse df n := by
  have hvals : (dateView parse df n).2 =
      dateCountsOf ((colCells df.rows (colIdx df.header n)).filterMap parse) := by
    show dateCountsOf _ = _
    congr 1
    rw [colCells, List.filterMap_map, List.filterMap_map]
    apply List.filterMap_congr
    intro r _
    show (match (r.set (colIdx df.header n)
            (toDateCell parse (r.getD (colIdx df.header n) Cell.na))).getD
            (colIdx df.header n) Cell.na with
          | Cell.date d => some d
          | _ => none) = parse (r.getD (colIdx df.header n) Cell.na)
    rw [getD_set_self]
    by_cases hj : colIdx df.header n < r.length
    · rw [if_pos hj]
      exact extract_toDate parse _
    · rw [if_neg hj]
      have hcell : r.getD (colIdx df.header n) Cell.na = Cell.na := by
        rw [List.getD_eq_getElem?_getD, List.getElem?_eq_none (Nat.le_of_not_lt hj)]
        rfl
      show none = parse (r.getD (colIdx df.header n) Cell.na)
      rw [hcell, hna]
  refine ⟨List.length_map _ _, ?_, ?_, ?_, ?_, ?_, ?_⟩
  · intro k hk
    show colCells (df.rows.map _) k = _
    rw [colCells, colCells, List.map_map]
    apply List.map_congr_left
    intro r _
    show (r.set (colIdx df.header n) _).getD k Cell.na = r.getD k Cell.na
    rw [List.getD_eq_getElem?_getD, List.getElem?_set, if_neg (fun h => hk h.symm),
      ← List.getD_eq_getElem?_getD]
  · intro k hk
    show (df.header.set (colIdx df.header n) _).getD k ("", Dtype.obj) = _
    rw [List.getD_eq_getElem?_getD, List.getElem?_set, if_neg (fun h => hk h.symm),
      ← List.getD_eq_getElem?_getD]
  · show colCells (df.rows.map _) (colIdx df.header n) = _
    rw [colCells, colCells, List.map_map, List.map_map]
    apply List.map_congr_left
    intro r _
    show (r.set (colIdx df.header n)
        (toDateCell parse (r.getD (colIdx df.header n) Cell.na))).getD
        (colIdx df.header n) Cell.na =
      toDateCell parse (r.getD (colIdx df.header n) Cell.na)
    rw [getD_set_self]
    by_cases hj : colIdx df.header n < r.length
    · rw [if_pos hj]
    · rw [if_neg hj]
      have hcell : r.getD (colIdx df.header n) Cell.na = Cell.na := by
        rw [List.getD_eq_getElem?_getD, List.getElem?_eq_none (Nat.le_of_not_lt hj)]
        rfl
      show Cell.na = toDateCell parse (r.getD (colIdx df.header n) Cell.na)
      rw [hcell]
      simp [toDateCell, hna]
  · rw [hvals]
    exact dateCountsOf_keys_sorted _
  · intro p hp
    rw [hvals] at hp
    exact mem_dateCountsOf _ p hp
  · intro d
    rw [hvals, keys_dateCountsOf]

/-- Witness for C7: a text column of ISO dates (with one repeated date and
one junk value) next to a numeric column. -/
theorem date_view_effect_witness :
    DateViewSpec parseDateCell
      { header := [("event", Dtype.obj), ("v", Dtype.num)],
        rows := [[Cell.str "2021-05-01", Cell.num 1],
                 [Cell.str "2021-04-01", Cell.num 2],
                 [Cell.str "2021-05-01", Cell.num 3],
                 [Cell.str "junk", Cell.num 4]] }
      "event" :=
  date_view_effect parseDateCell _ "event" (by rfl)

/-! ### Per-file ingestion (lines 62-84) -/

/-- The outcome for one uploaded file: a loaded dataset, or a reported
error message (the file is skipped). -/
inductive FileResult where
  | ok : DataFrame → FileResult
  | err : String → FileResult
deriving DecidableEq, Repr

/-- Index of the last dot of a character list, if any. -/
def lastDotIdx : List Char → Option Nat
  | [] => none
  | c :: cs =>
      match lastDotIdx cs with
      | some i => some (i + 1)
      | none => if c = '.' then some 0 else none

/-- Models `os.path.splitext(file.name)[-1].lower()` for a bare file name:
the suffix from the last dot, lowercased; empty when there is no dot or when
every character before the last dot is itself a dot (a leading-dot name has
no extension). -/
def fileExt (name : String) : String :=
  match lastDotIdx name.toList with
  | none => ""
  | some i =>
      if (name.toList.take i).all (fun c => c = '.') then ""
      else String.mk ((name.toList.drop i).map Char.toLower)

/-- One iteration of the upload loop (lines 64-84) for a (name, contents)
pair: dispatch on the extension, read the file with the format's reader, and
turn a reader failure or an unsupported extension into a reported error.
The CSV and Excel readers are external collaborators, passed as functions. -/
def processFile (readCsv readExcel : String → Except String DataFrame)
    (file : String × String) : FileResult :=
  let ext := fileExt file.1
  if ext = ".csv" then
    match readCsv file.2 with
    | Except.ok df => FileResult.ok df
    | Except.error e => FileResult.err ("Error reading CSV file: " ++ e)
  else if ext = ".xlsx" then
    match readExcel file.2 with
    | Except.ok df => FileResult.ok df
    | Except.error e => FileResult.err ("Error reading Excel file: " ++ e)
  else FileResult.err ("Unsupported file type: " ++ ext)

/-- The upload loop over a batch: each file is processed on its own. -/
def processFiles (readCsv readExcel : String → Except String DataFrame)
    (files : List (String × String)) : List FileResult :=
  files.map (processFile readCsv readExcel)

/-- The spec's error-isolation property for a batch at position `i`: every
file gets exactly one outcome, the outcome at `i` depends only on the file
at `i` (so a failure elsewhere cannot affect it), and an unsupported
extension or a reader failure yields a reported error for that file alone —
never a failure of the whole run. -/
def IngestionIsolation (readCsv readExcel : String → Except String DataFrame)
    (files : List (String × String)) (i : Nat) : Prop :=
  (processFiles readCsv readExcel files).length = files.length ∧
  ((processFiles readCsv readExcel files)[i]? =
    (files[i]?).map (processFile readCsv readExcel)) ∧
  (∀ files2 : List (String × String), files2[i]? = files[i]? →
    (processFiles readCsv readExcel files2)[i]? =
      (processFiles readCsv readExcel files)[i]?) ∧
  (∀ f : String × String, fileExt f.1 ≠ ".csv" → fileExt f.1 ≠ ".xlsx" →
    processFile readCsv readExcel f =
      FileResult.err ("Unsupported file type: " ++ fileExt f.1)) ∧
  (∀ (f : String × String) (e : String), fileExt f.1 = ".csv" →
    readCsv f.2 = Except.error e →
    processFile readCsv readExcel f =
      FileResult.err ("Error reading CSV file: " ++ e)) ∧
  (∀ (f : String × String) (e : String), fileExt f.1 = ".xlsx" →
    readExcel f.2 = Except.error e →
    processFile readCsv readExcel f =
      FileResult.err ("Error reading Excel file: " ++ e))

/-- C8: file-level error isolation — each uploaded file is processed
independently; an unsupported extension or a parse failure is reported for
that file only and never affects the rest of the batch. -/
theorem ingestion_isolation (readCsv readExcel : String → Except String DataFrame)
    (files : List (String × String)) (i : Nat) :
    IngestionIsolation readCsv readExcel files i := by
  refine ⟨List.length_map _ _, List.getElem?_map _ files i, ?_, ?_, ?_, ?_⟩
  · intro files2 h2
    rw [processFiles, processFiles, List.getElem?_map, List.getElem?_map, h2]
  · intro f hcsv hxlsx
    rw [processFile]
    simp only [if_neg hcsv, if_neg hxlsx]
  · intro f e hcsv herr
    rw [processFile]
    simp only [hcsv, if_pos, herr]
  · intro f e hxlsx herr
    rw [processFile, hxlsx]
    rw [if_neg (by decide : ¬ (".xlsx" : String) = ".csv"), if_pos rfl, herr]

end DataSweeper
